import Mathlib

/-!
# Verification of the Vertex funding-rates pipeline

Shallow embedding of `src/vertex.py`: a linear fetch/transform/aggregate/report
pipeline for perpetual-futures funding rates.

Modelling conventions:
* Python dicts become insertion-ordered association lists; `dict.get`,
  key-update and key-append are embedded by structural recursion.
* Python floats become rationals (`ℚ`); the raw funding values and the
  arithmetic in the claims are exact in `ℚ`.
* `float(...)`/`int(...)` parsing of decimal strings is embedded by explicit
  character-level parsers returning `Option`; the `try/except` fallbacks of
  the source become `Option.getD`.
* Network calls are parameters: `run_main` takes the per-batch fetch result
  as a function, and the mapping loader takes the decoded assets response.
* A record of the assets response may lack `product_id`/`ticker_id`
  (a `KeyError` in Python); this is an `Option` field, and the dict
  comprehension of `update_product_mapping` becomes a monadic fold in
  `Except Unit`, the error standing for the uncaught exception.
-/

namespace Vertex

/-! ## Data model -/

/-- One timestamped snapshot: `{"timestamp": int, "funding_rates": {pid: raw}}`.
The `funding_rates` dict is kept in key-iteration order. -/
structure Snapshot where
  timestamp : Int
  funding_rates : List (String × String)
  deriving DecidableEq

/-- One processed data point: `{"timestamp": ..., "funding_rate": ...}`. -/
structure FundingEntry where
  timestamp : Int
  funding_rate : ℚ
  deriving DecidableEq

/-- `PRODUCT_MAPPING`: product id → ticker symbol, insertion-ordered. -/
abbrev ProductMapping := List (Int × String)

/-- `funding_data`: ticker → ordered list of funding entries. -/
abbrev FundingData := List (String × List FundingEntry)

/-- One record of the assets response; a missing field (`KeyError` on
`item["product_id"]` / `item["ticker_id"]`) is `none`. -/
structure AssetRecord where
  product_id : Option Int
  ticker_id : Option String
  deriving DecidableEq

/-! ## Decimal string parsing (Python `int(...)` / `float(...)`) -/

/-- Value of a digit string, most significant first. -/
def digitsToNat (cs : List Char) : Nat :=
  cs.foldl (fun n c => n * 10 + (c.toNat - 48)) 0

/-- Python `int(s)` on decimal strings: optional sign, then digits. -/
def parseIntChars : List Char → Option Int
  | [] => none
  | '-' :: cs =>
    if cs ≠ [] ∧ cs.all Char.isDigit then some (-(digitsToNat cs : Int)) else none
  | '+' :: cs =>
    if cs ≠ [] ∧ cs.all Char.isDigit then some (digitsToNat cs : Int) else none
  | cs =>
    if cs.all Char.isDigit then some (digitsToNat cs : Int) else none

/-- Unsigned mantissa: `digits`, `digits.digits`, `digits.` or `.digits`. -/
def parseMantissa (cs : List Char) : Option ℚ :=
  let ip := cs.takeWhile (fun c => c != '.')
  let rest := cs.dropWhile (fun c => c != '.')
  match rest with
  | [] => if ip ≠ [] ∧ ip.all Char.isDigit then some (digitsToNat ip : ℚ) else none
  | _ :: fp =>
    if (ip ≠ [] ∨ fp ≠ []) ∧ ip.all Char.isDigit ∧ fp.all Char.isDigit then
      some ((digitsToNat ip : ℚ) + (digitsToNat fp : ℚ) / (10 : ℚ) ^ fp.length)
    else none

/-- Mantissa with optional sign. -/
def parseSignedMantissa : List Char → Option ℚ
  | '-' :: cs => (parseMantissa cs).map (fun q => -q)
  | '+' :: cs => parseMantissa cs
  | cs => parseMantissa cs

/-- Python `float(s)` on finite decimal/scientific literals. -/
def parseFloat (s : String) : Option ℚ :=
  let cs := s.toList
  let mant := cs.takeWhile (fun c => c != 'e' && c != 'E')
  let rest := cs.dropWhile (fun c => c != 'e' && c != 'E')
  match rest with
  | [] => parseSignedMantissa mant
  | _ :: ecs =>
    match parseSignedMantissa mant, parseIntChars ecs with
    | some m, some e => some (m * (10 : ℚ) ^ e)
    | _, _ => none

/-! ## Dict operations on `ProductMapping` -/

/-- `mapping.get(k)` (first binding of `k`). -/
def dictGet : ProductMapping → Int → Option String
  | [], _ => none
  | (k', v) :: rest, k => if k' = k then some v else dictGet rest k

/-- `mapping[k] = v`: update in place, or append a new binding. -/
def dictInsert : ProductMapping → Int → String → ProductMapping
  | [], k, v => [(k, v)]
  | (k', v') :: rest, k, v =>
    if k' = k then (k, v) :: rest else (k', v') :: dictInsert rest k v

/-! ## Mapping Loader (`update_product_mapping`, src/vertex.py:9-27) -/

/-- One step of the dict comprehension
`{item["product_id"]: item["ticker_id"] for item in symbols}`: a record with a
missing field raises (`Except.error`) at that point. -/
def mappingStep (m : ProductMapping) (r : AssetRecord) : Except Unit ProductMapping :=
  match r.product_id, r.ticker_id with
  | some pid, some tid => Except.ok (dictInsert m pid tid)
  | _, _ => Except.error ()

/-- The whole dict comprehension, built left to right. -/
def buildMappingE (symbols : List AssetRecord) : Except Unit ProductMapping :=
  symbols.foldlM mappingStep []

/-- `set(new_mapping.keys()) == set(PRODUCT_MAPPING.keys())`. -/
def idSetEq (a b : ProductMapping) : Bool :=
  a.all (fun p => b.any (fun q => q.1 == p.1)) &&
    b.all (fun q => a.any (fun p => p.1 == q.1))

/-- The state transition of `update_product_mapping`, given the previous mapping
and the decoded assets response: returns the exception outcome (an uncaught
`KeyError` is `Except.error ()`) and the mapping after the call.  The global
is reassigned only when the key sets differ, and only after the whole new
mapping has been built. -/
def update_product_mapping (old : ProductMapping) (symbols : List AssetRecord) :
    Except Unit Unit × ProductMapping :=
  match buildMappingE symbols with
  | .error e => (.error e, old)
  | .ok new_mapping =>
    if idSetEq new_mapping old then (.ok (), old) else (.ok (), new_mapping)

/-! ## Batch Planner (`chunk_list`, src/vertex.py:29-34) -/

/-- Loop of `for i in range(0, len(lst), chunk_size): yield lst[i:i+chunk_size]`,
with the iteration count bounded by a fuel (the list length suffices for
`chunk_size ≥ 1`). -/
def chunkAux (k : Nat) : Nat → List α → List (List α)
  | _, [] => []
  | 0, _ :: _ => []
  | fuel + 1, a :: l => ((a :: l).take k) :: chunkAux k fuel ((a :: l).drop k)

/-- `chunk_list(lst, chunk_size)`, materialised as a list of slices. -/
def chunk_list (l : List α) (chunk_size : Nat) : List (List α) :=
  chunkAux chunk_size l.length l

/-! ## Snapshot Fetcher (`get_historical_funding_rates`, src/vertex.py:36-67) -/

/-- The `interval` object of the POST payload. -/
structure IntervalPayload where
  count : Nat
  granularity : Nat
  max_time : Nat
  deriving DecidableEq

/-- `rounded_time = current_time - (current_time % 3600) + 5` and the payload it
is sent in.  The rounding modulus is the literal `3600`; the `granularity`
argument is forwarded in the payload but does not enter the rounding. -/
def interval_payload (current_time count granularity : Nat) : IntervalPayload :=
  { count := count
    granularity := granularity
    max_time := current_time - current_time % 3600 + 5 }

/-! ## Rate Processor (`process_funding_rates`, src/vertex.py:69-101) -/

/-- `int(prod_id_str)` with the `except ValueError: prod_id = prod_id_str`
fallback: a parsed integer key or the literal string key. -/
def keyOf (s : String) : Int ⊕ String :=
  match parseIntChars s.toList with
  | some n => Sum.inl n
  | none => Sum.inr s

/-- `f"{prod_id}"`: how the key renders inside the `Unknown(...)` label. -/
def keyStr : Int ⊕ String → String
  | Sum.inl n => toString n
  | Sum.inr s => s

/-- `PRODUCT_MAPPING.get(prod_id, f"Unknown({prod_id})")`; a string key never
matches the integer-keyed mapping. -/
def tickerOf (mapping : ProductMapping) : Int ⊕ String → String
  | Sum.inl n =>
    match dictGet mapping n with
    | some t => t
    | none => "Unknown(" ++ toString n ++ ")"
  | Sum.inr s => "Unknown(" ++ s ++ ")"

/-- `((raw_value / 1e18) / 24) * 100`, with `raw_value = float(rate_str)` and
the `except ValueError: raw_value = 0.0` fallback. -/
def rateOf (rate_str : String) : ℚ :=
  (((parseFloat rate_str).getD 0) / (10 : ℚ) ^ 18 / 24) * 100

/-- `funding_data[ticker].append(entry)`, creating `funding_data[ticker] = []`
first when the ticker is absent. -/
def fdAppend : FundingData → String → FundingEntry → FundingData
  | [], t, e => [(t, [e])]
  | (t', l) :: rest, t, e =>
    if t' = t then (t', l ++ [e]) :: rest else (t', l) :: fdAppend rest t e

/-- `funding_data.get(ticker, [])` (first binding). -/
def fdGet : FundingData → String → List FundingEntry
  | [], _ => []
  | (t', l) :: rest, t => if t' = t then l else fdGet rest t

/-- `process_funding_rates(snapshots)` with the mapping passed explicitly. -/
def process_funding_rates (mapping : ProductMapping) (snapshots : List Snapshot) :
    FundingData :=
  snapshots.foldl
    (fun fd snapshot =>
      snapshot.funding_rates.foldl
        (fun fd pr =>
          fdAppend fd (tickerOf mapping (keyOf pr.1))
            ⟨snapshot.timestamp, rateOf pr.2⟩)
        fd)
    []

/-- The entries `process_funding_rates` files under a given ticker, read off
directly from the snapshot stream (specification-side characterisation). -/
def tickerEntries (mapping : ProductMapping) (snapshots : List Snapshot)
    (t : String) : List FundingEntry :=
  (snapshots.map (fun s =>
    s.funding_rates.filterMap (fun pr =>
      if tickerOf mapping (keyOf pr.1) = t then
        some ⟨s.timestamp, rateOf pr.2⟩
      else none))).flatten

/-- Total number of funding entries stored across all tickers. -/
def totalEntries (fd : FundingData) : Nat :=
  (fd.map (fun p => p.2.length)).sum

/-- Total number of `(product-id, raw-rate)` pairs across all snapshots. -/
def totalPairs (snapshots : List Snapshot) : Nat :=
  (snapshots.map (fun s => s.funding_rates.length)).sum

/-! ## Aggregator/Reporter (`main`, src/vertex.py:103-158) -/

/-- Step 5 of `main`: each ticker's entries are summed and divided by the
literal `3` (one assignment per distinct ticker of the dict). -/
def average_rates (funding_data : FundingData) : List (String × ℚ) :=
  funding_data.map (fun p => (p.1, (p.2.map FundingEntry.funding_rate).sum / 3))

/-- Insertion step of the stable descending sort: a new element goes before the
first resident whose rate is `≤` its own, hence after all earlier-inserted
elements with an equal rate. -/
def insertDesc (x : String × ℚ) : List (String × ℚ) → List (String × ℚ)
  | [] => [x]
  | y :: ys => if y.2 ≤ x.2 then x :: y :: ys else y :: insertDesc x ys

/-- `sorted(average_rates.items(), key=lambda x: x[1], reverse=True)`: a stable
sort, descending on the rate component. -/
def sortDesc : List (String × ℚ) → List (String × ℚ)
  | [] => []
  | x :: xs => insertDesc x (sortDesc xs)

/-- Step 3 of `main`: the batch loop, extending `all_snapshots` by each
non-empty fetch result. -/
def collect_snapshots (fetch : List Int → List Snapshot)
    (batches : List (List Int)) : List Snapshot :=
  batches.foldl
    (fun acc batch =>
      let snapshots := fetch batch
      if snapshots ≠ [] then acc ++ snapshots else acc)
    []

/-- The data flow of `main` after the mapping update, with the per-batch fetch
result supplied as a function.  `none` is the early `return` when no snapshot
data exists (no report file is written); `some` carries the ranked list that
is written to `vertexrates.txt`. -/
def run_main (mapping : ProductMapping) (fetch : List Int → List Snapshot) :
    Option (List (String × ℚ)) :=
  let product_ids := mapping.map Prod.fst
  let count := 72
  let max_batch_size := 2000 / count
  let all_snapshots := collect_snapshots fetch (chunk_list product_ids max_batch_size)
  if all_snapshots = [] then none
  else some (sortDesc (average_rates (process_funding_rates mapping all_snapshots)))

/-! ## Lemmas about the Batch Planner -/

theorem chunkAux_nil (k fuel : Nat) : chunkAux k fuel ([] : List α) = [] := by
  cases fuel <;> rfl

theorem chunkAux_cons_succ (k fuel : Nat) (a : α) (l : List α) :
    chunkAux k (fuel + 1) (a :: l)
      = ((a :: l).take k) :: chunkAux k fuel ((a :: l).drop k) := rfl

theorem chunkAux_flatten (k : Nat) (hk : 1 ≤ k) :
    ∀ (fuel : Nat) (l : List α), l.length ≤ fuel → (chunkAux k fuel l).flatten = l := by
  intro fuel
  induction fuel with
  | zero =>
    intro l hl
    have h0 : l = [] := List.eq_nil_of_length_eq_zero (Nat.le_zero.mp hl)
    subst h0
    simp [chunkAux_nil]
  | succ n ih =>
    intro l hl
    cases l with
    | nil => simp [chunkAux_nil]
    | cons a t =>
      rw [chunkAux_cons_succ, List.flatten_cons, ih]
      · exact List.take_append_drop k (a :: t)
      · simp only [List.length_drop, List.length_cons]
        simp only [List.length_cons] at hl
        omega

theorem chunkAux_mem (k : Nat) (hk : 1 ≤ k) :
    ∀ (fuel : Nat) (l : List α), ∀ c ∈ chunkAux k fuel l, c.length ≤ k ∧ c ≠ [] := by
  intro fuel
  induction fuel with
  | zero =>
    intro l c hc
    cases l <;> simp [chunkAux_nil, chunkAux] at hc
  | succ n ih =>
    intro l c hc
    cases l with
    | nil => simp [chunkAux_nil] at hc
    | cons a t =>
      rw [chunkAux_cons_succ] at hc
      rcases List.mem_cons.mp hc with h | h
      · subst h
        refine ⟨by simp [List.length_take], ?_⟩
        have : (a :: t).take k = a :: t.take (k - 1) := by
          cases k with
          | zero => omega
          | succ m => simp
        simp [this]
      · exact ih _ c h

theorem chunkAux_dropLast (k : Nat) (hk : 1 ≤ k) :
    ∀ (fuel : Nat) (l : List α), l.length ≤ fuel →
      ∀ c ∈ (chunkAux k fuel l).dropLast, c.length = k := by
  intro fuel
  induction fuel with
  | zero =>
    intro l hl c hc
    have h0 : l = [] := List.eq_nil_of_length_eq_zero (Nat.le_zero.mp hl)
    subst h0
    simp [chunkAux_nil] at hc
  | succ n ih =>
    intro l hl c hc
    cases l with
    | nil => simp [chunkAux_nil] at hc
    | cons a t =>
      rw [chunkAux_cons_succ] at hc
      by_cases hrest : chunkAux k n ((a :: t).drop k) = []
      · rw [hrest] at hc
        simp at hc
      · rw [List.dropLast_cons_of_ne_nil hrest] at hc
        rcases List.mem_cons.mp hc with h | h
        · subst h
          have hd : (a :: t).drop k ≠ [] := by
            intro hnil
            rw [hnil, chunkAux_nil] at hrest
            exact hrest rfl
          have hlt : k < (a :: t).length := by
            by_contra hle
            push_neg at hle
            exact hd (List.drop_eq_nil_of_le hle)
          simp only [List.length_take]
          omega
        · refine ih _ ?_ c h
          simp only [List.length_drop, List.length_cons]
          simp only [List.length_cons] at hl
          omega

/-- C3: for every id list and every batch size ≥ 1, the Batch Planner's slices
concatenate back to the input in order (hence are consecutive, non-overlapping
and in input order), every slice is nonempty of length ≤ the batch size, every
slice except possibly the last has length exactly the batch size, and the empty
input yields zero slices. -/
theorem chunk_list_partition {α : Type} (l : List α) (k : Nat) (hk : 1 ≤ k) :
    (chunk_list l k).flatten = l
    ∧ (∀ c ∈ (chunk_list l k).dropLast, c.length = k)
    ∧ (∀ c ∈ chunk_list l k, c.length ≤ k ∧ c ≠ [])
    ∧ chunk_list ([] : List α) k = [] :=
  ⟨chunkAux_flatten k hk _ l le_rfl,
   chunkAux_dropLast k hk _ l le_rfl,
   chunkAux_mem k hk _ l,
   by simp [chunk_list, chunkAux_nil]⟩

/-- Witness for C3 at a concrete input: five ids, batch size 2. -/
theorem chunk_list_partition_witness :
    (chunk_list [1, 2, 3, 4, 5] 2).flatten = [1, 2, 3, 4, 5]
    ∧ chunk_list [1, 2, 3, 4, 5] 2 = [[1, 2], [3, 4], [5]] :=
  ⟨(chunk_list_partition [1, 2, 3, 4, 5] 2 (by decide)).1, by decide⟩

/-! ## Claims about the Snapshot Fetcher cutoff -/

/-- C1 (counterexample): with granularity 7200 and current time 10800, the
`max_time` sent in the payload is `10805`, not `10800`-rounded-down-to-a-
multiple-of-`7200` plus 5 (which is `7205`): the code rounds to the literal
3600, not to the granularity argument. -/
theorem cutoff_not_granularity_rounded :
    (interval_payload 10800 72 7200).max_time ≠ 7200 * (10800 / 7200) + 5 := by
  decide

/-- C1 (amended): for every current time, count and granularity, the cutoff
`max_time` sent in the request equals the current time rounded down to the
nearest multiple of 3600 seconds (one hour) plus 5 — the rounding modulus is
fixed at 3600 and independent of the granularity argument. -/
theorem cutoff_is_hour_rounded (current_time count granularity : Nat) :
    (interval_payload current_time count granularity).max_time
      = 3600 * (current_time / 3600) + 5 := by
  simp only [interval_payload]
  omega

/-! ## Claims about the Aggregator average -/

/-- C2: each ticker's reported average is the sum of its entries' hourly
percentages divided by the fixed constant 3, whatever the number of entries. -/
theorem aggregator_average_is_sum_div_three (fd : FundingData) (t : String)
    (es : List FundingEntry) (h : (t, es) ∈ fd) :
    (t, (es.map FundingEntry.funding_rate).sum / 3) ∈ average_rates fd :=
  List.mem_map_of_mem _ h

/-- Witness for C2: a ticker with two entries (sum 6) is reported as 6/3 = 2,
showing the divisor is 3 and not the entry count. -/
theorem aggregator_average_is_sum_div_three_witness :
    (("X", ((([⟨0, 3⟩, ⟨1, 3⟩] : List FundingEntry).map FundingEntry.funding_rate).sum / 3))
        ∈ average_rates [("X", [⟨0, 3⟩, ⟨1, 3⟩])])
    ∧ ((([⟨0, 3⟩, ⟨1, 3⟩] : List FundingEntry).map FundingEntry.funding_rate).sum / 3 : ℚ) = 2 :=
  ⟨aggregator_average_is_sum_div_three [("X", [⟨0, 3⟩, ⟨1, 3⟩])] "X" [⟨0, 3⟩, ⟨1, 3⟩]
      (List.mem_singleton.mpr rfl),
   by norm_num⟩

/-! ## Claims about the rate formula -/

/-- C9: the hourly percentage is `((raw / 1e18) / 24) * 100` applied to the
parsed raw value (0 on parse failure), and on the raw string
`"2400000000000000000"` it evaluates to exactly 10. -/
theorem rate_formula_and_example :
    (∀ rate_str : String,
        rateOf rate_str = (((parseFloat rate_str).getD 0) / (10 : ℚ) ^ 18 / 24) * 100)
    ∧ rateOf "2400000000000000000" = 10 := by
  refine ⟨fun _ => rfl, ?_⟩
  have h : parseFloat "2400000000000000000" = some (2400000000000000000 : ℚ) := by decide
  rw [rateOf, h]
  norm_num

/-! ## Lemmas about the Mapping Loader -/

theorem idSetEq_iff (a b : ProductMapping) :
    idSetEq a b = true ↔ ∀ k : Int, k ∈ a.map Prod.fst ↔ k ∈ b.map Prod.fst := by
  simp only [idSetEq, Bool.and_eq_true, List.all_eq_true, List.any_eq_true,
    beq_iff_eq, List.mem_map]
  constructor
  · rintro ⟨h1, h2⟩ k
    constructor
    · rintro ⟨p, hp, hk⟩
      subst hk
      exact h1 p hp
    · rintro ⟨q, hq, hk⟩
      subst hk
      exact h2 q hq
  · intro h
    refine ⟨fun p hp => (h p.1).mp ⟨p, hp, rfl⟩, fun q hq => (h q.1).mpr ⟨q, hq, rfl⟩⟩

theorem foldlM_mappingStep_error :
    ∀ (symbols : List AssetRecord) (m : ProductMapping) (r : AssetRecord),
      r ∈ symbols → (r.product_id = none ∨ r.ticker_id = none) →
      symbols.foldlM mappingStep m = Except.error () := by
  intro symbols
  induction symbols with
  | nil =>
    intro m r hr _
    simp at hr
  | cons a as ih =>
    intro m r hr hbad
    rw [List.foldlM_cons]
    rcases List.mem_cons.mp hr with h | h
    · subst h
      have hstep : mappingStep m r = Except.error () := by
        rcases hbad with hb | hb
        · cases htid : r.ticker_id <;> simp [mappingStep, hb, htid]
        · cases hpid : r.product_id <;> simp [mappingStep, hb, hpid]
      rw [hstep]
      rfl
    · cases hstep : mappingStep m a with
      | error e =>
        cases e
        rfl
      | ok m' =>
        exact ih m' r h hbad

/-- C4: after a successful fetch and decode, the Mapping Loader keeps the old
mapping exactly when the new response's product-id set equals the old one
(so id→ticker value changes for existing ids do not trigger a replacement),
and replaces it with the newly built mapping exactly when the id sets differ. -/
theorem mapping_replace_iff_id_sets_differ (old : ProductMapping)
    (symbols : List AssetRecord) (nm : ProductMapping)
    (hok : buildMappingE symbols = Except.ok nm) :
    ((update_product_mapping old symbols).2 = old
        ↔ ∀ k : Int, k ∈ nm.map Prod.fst ↔ k ∈ old.map Prod.fst)
    ∧ ((¬ ∀ k : Int, k ∈ nm.map Prod.fst ↔ k ∈ old.map Prod.fst) →
        (update_product_mapping old symbols).2 = nm) := by
  have hupd : update_product_mapping old symbols
      = if idSetEq nm old then (.ok (), old) else (.ok (), nm) := by
    unfold update_product_mapping
    rw [hok]
  by_cases hset : idSetEq nm old = true
  · rw [hupd, if_pos hset]
    exact ⟨⟨fun _ => (idSetEq_iff nm old).mp hset, fun _ => rfl⟩,
      fun hne => absurd ((idSetEq_iff nm old).mp hset) hne⟩
  · rw [hupd, if_neg hset]
    refine ⟨⟨fun heq => ?_, fun hiff => absurd ((idSetEq_iff nm old).mpr hiff) hset⟩,
      fun _ => rfl⟩
    subst heq
    exact fun k => Iff.rfl

/-- Witness for C4: the response changes the ticker of the only existing id
(1 ↦ "A" becomes 1 ↦ "B"); the id sets agree, so the old mapping is kept. -/
theorem mapping_replace_iff_id_sets_differ_witness :
    (update_product_mapping [(1, "A")] [⟨some 1, some "B"⟩]).2 = [(1, "A")] :=
  (mapping_replace_iff_id_sets_differ [(1, "A")] [⟨some 1, some "B"⟩] [(1, "B")]
      rfl).1.mpr (fun _ => Iff.rfl)

/-- C10: if some record of the decoded assets response lacks `product_id` or
`ticker_id`, the call raises an uncaught exception, and the stored mapping is
left unchanged (the reassignment would only happen after the whole new mapping
was built). -/
theorem mapping_unchanged_on_missing_field (old : ProductMapping)
    (symbols : List AssetRecord) (r : AssetRecord) (hr : r ∈ symbols)
    (hbad : r.product_id = none ∨ r.ticker_id = none) :
    (update_product_mapping old symbols).1 = Except.error ()
    ∧ (update_product_mapping old symbols).2 = old := by
  have herr : buildMappingE symbols = Except.error () :=
    foldlM_mappingStep_error symbols [] r hr hbad
  unfold update_product_mapping
  rw [herr]
  exact ⟨rfl, rfl⟩

/-- Witness for C10: one record with `product_id` missing. -/
theorem mapping_unchanged_on_missing_field_witness :
    (update_product_mapping [(1, "A")] [⟨none, some "B"⟩]).1 = Except.error ()
    ∧ (update_product_mapping [(1, "A")] [⟨none, some "B"⟩]).2 = [(1, "A")] :=
  mapping_unchanged_on_missing_field [(1, "A")] [⟨none, some "B"⟩] ⟨none, some "B"⟩
    (List.mem_singleton.mpr rfl) (Or.inl rfl)

/-! ## Claims about the main run -/

theorem collect_snapshots_eq_nil (fetch : List Int → List Snapshot)
    (h : ∀ b, fetch b = []) (batches : List (List Int)) :
    collect_snapshots fetch batches = [] := by
  unfold collect_snapshots
  have hfold : ∀ (bs : List (List Int)) (acc : List Snapshot),
      bs.foldl
        (fun acc batch =>
          let snapshots := fetch batch
          if snapshots ≠ [] then acc ++ snapshots else acc)
        acc = acc := by
    intro bs
    induction bs with
    | nil => intro acc; rfl
    | cons b bs' ih =>
      intro acc
      rw [List.foldl_cons]
      simp only [h b, ne_eq, not_true_eq_false, if_false]
      exact ih acc
  exact hfold batches []

/-- C8: if every batch fetch returns an empty snapshot sequence, the run ends
early with no report (`none`: the report file is never written). -/
theorem run_main_none_of_all_batches_empty (mapping : ProductMapping)
    (fetch : List Int → List Snapshot) (h : ∀ b, fetch b = []) :
    run_main mapping fetch = none := by
  simp [run_main, collect_snapshots_eq_nil fetch h]

/-- Witness for C8: a one-product mapping and a fetch that always returns no
snapshots. -/
theorem run_main_none_of_all_batches_empty_witness :
    run_main [(1, "BTC-PERP")] (fun _ => []) = none :=
  run_main_none_of_all_batches_empty [(1, "BTC-PERP")] (fun _ => []) (fun _ => rfl)

/-! ## Lemmas about the Rate Processor -/

theorem fdGet_fdAppend (fd : FundingData) (t t' : String) (e : FundingEntry) :
    fdGet (fdAppend fd t' e) t = fdGet fd t ++ (if t' = t then [e] else []) := by
  induction fd with
  | nil =>
    by_cases h : t' = t <;> simp [fdAppend, fdGet, h]
  | cons p rest ih =>
    obtain ⟨t₀, l₀⟩ := p
    by_cases h0 : t₀ = t'
    · subst h0
      by_cases h1 : t₀ = t
      · subst h1
        simp [fdAppend, fdGet]
      · simp [fdAppend, fdGet, h1]
    · by_cases h1 : t₀ = t
      · subst h1
        have h2 : ¬ t' = t₀ := fun hh => h0 hh.symm
        simp [fdAppend, fdGet, h0, h2]
      · simp [fdAppend, fdGet, h0, h1, ih]

theorem fdGet_foldl_pairs (mapping : ProductMapping) (ts : Int)
    (prs : List (String × String)) (t : String) :
    ∀ fd : FundingData,
      fdGet (prs.foldl (fun fd pr =>
          fdAppend fd (tickerOf mapping (keyOf pr.1)) ⟨ts, rateOf pr.2⟩) fd) t
        = fdGet fd t ++ prs.filterMap (fun pr =>
            if tickerOf mapping (keyOf pr.1) = t then some ⟨ts, rateOf pr.2⟩
            else none) := by
  induction prs with
  | nil =>
    intro fd
    simp
  | cons pr prs' ih =>
    intro fd
    rw [List.foldl_cons, ih, fdGet_fdAppend]
    by_cases h : tickerOf mapping (keyOf pr.1) = t
    · simp [List.filterMap_cons, h, List.append_assoc]
    · simp [List.filterMap_cons, h]

theorem fdGet_process_eq_tickerEntries (mapping : ProductMapping)
    (snapshots : List Snapshot) (t : String) :
    fdGet (process_funding_rates mapping snapshots) t
      = tickerEntries mapping snapshots t := by
  have main : ∀ (snaps : List Snapshot) (fd : FundingData),
      fdGet (snaps.foldl (fun fd snapshot =>
          snapshot.funding_rates.foldl (fun fd pr =>
            fdAppend fd (tickerOf mapping (keyOf pr.1))
              ⟨snapshot.timestamp, rateOf pr.2⟩) fd) fd) t
        = fdGet fd t ++ tickerEntries mapping snaps t := by
    intro snaps
    induction snaps with
    | nil =>
      intro fd
      simp [tickerEntries]
    | cons s ss ih =>
      intro fd
      rw [List.foldl_cons, ih, fdGet_foldl_pairs]
      simp [tickerEntries, List.append_assoc]
  simpa [process_funding_rates, fdGet] using main snapshots []

theorem totalEntries_fdAppend (fd : FundingData) (t : String) (e : FundingEntry) :
    totalEntries (fdAppend fd t e) = totalEntries fd + 1 := by
  induction fd with
  | nil => simp [fdAppend, totalEntries]
  | cons p rest ih =>
    obtain ⟨t₀, l₀⟩ := p
    by_cases h : t₀ = t
    · simp [fdAppend, h, totalEntries]
      omega
    · simp [fdAppend, h, totalEntries] at ih ⊢
      omega

theorem totalEntries_process (mapping : ProductMapping) (snapshots : List Snapshot) :
    totalEntries (process_funding_rates mapping snapshots) = totalPairs snapshots := by
  have inner : ∀ (ts : Int) (prs : List (String × String)) (fd : FundingData),
      totalEntries (prs.foldl (fun fd pr =>
          fdAppend fd (tickerOf mapping (keyOf pr.1)) ⟨ts, rateOf pr.2⟩) fd)
        = totalEntries fd + prs.length := by
    intro ts prs
    induction prs with
    | nil =>
      intro fd
      simp
    | cons pr prs' ih =>
      intro fd
      rw [List.foldl_cons, ih, totalEntries_fdAppend]
      simp only [List.length_cons]
      omega
  have outer : ∀ (snaps : List Snapshot) (fd : FundingData),
      totalEntries (snaps.foldl (fun fd snapshot =>
          snapshot.funding_rates.foldl (fun fd pr =>
            fdAppend fd (tickerOf mapping (keyOf pr.1))
              ⟨snapshot.timestamp, rateOf pr.2⟩) fd) fd)
        = totalEntries fd + totalPairs snaps := by
    intro snaps
    induction snaps with
    | nil =>
      intro fd
      simp [totalPairs]
    | cons s ss ih =>
      intro fd
      rw [List.foldl_cons, ih, inner s.timestamp s.funding_rates fd]
      simp only [totalPairs, List.map_cons, List.sum_cons]
      omega
  simpa [process_funding_rates, totalEntries] using outer snapshots []

/-- C5: an entry whose raw rate string does not parse yields the hourly rate
exactly 0 and is still recorded under its ticker; the stage is a total
function, so no error escapes it. -/
theorem rate_processor_malformed_rate_zero (mapping : ProductMapping)
    (snapshots : List Snapshot) (s : Snapshot) (pid rs : String)
    (hs : s ∈ snapshots) (hpr : (pid, rs) ∈ s.funding_rates)
    (hbad : parseFloat rs = none) :
    rateOf rs = 0
    ∧ (⟨s.timestamp, 0⟩ : FundingEntry)
        ∈ fdGet (process_funding_rates mapping snapshots)
            (tickerOf mapping (keyOf pid)) := by
  have hz : rateOf rs = 0 := by simp [rateOf, hbad]
  refine ⟨hz, ?_⟩
  rw [fdGet_process_eq_tickerEntries]
  unfold tickerEntries
  refine List.mem_flatten.mpr ⟨_, List.mem_map_of_mem _ hs, ?_⟩
  refine List.mem_filterMap.mpr ⟨(pid, rs), hpr, ?_⟩
  rw [if_pos rfl, hz]

/-- Witness for C5: the malformed raw rate `"abc"` is recorded as a 0-valued
entry. -/
theorem rate_processor_malformed_rate_zero_witness :
    (⟨0, 0⟩ : FundingEntry)
      ∈ fdGet (process_funding_rates [] [⟨0, [("1", "abc")]⟩])
          (tickerOf [] (keyOf "1")) :=
  (rate_processor_malformed_rate_zero [] [⟨0, [("1", "abc")]⟩] ⟨0, [("1", "abc")]⟩
      "1" "abc" (List.mem_singleton.mpr rfl) (List.mem_singleton.mpr rfl)
      (by decide)).2

/-- C6: a pair whose product id is absent from the mapping is labelled exactly
`Unknown(<id>)` and is still recorded; moreover the processor keeps every
pair of every snapshot (total entry count equals total pair count), so no
data point is dropped. -/
theorem rate_processor_unknown_label (mapping : ProductMapping)
    (snapshots : List Snapshot) (s : Snapshot) (pid rs : String)
    (hs : s ∈ snapshots) (hpr : (pid, rs) ∈ s.funding_rates)
    (hmiss : ∀ n : Int, keyOf pid = Sum.inl n → dictGet mapping n = none) :
    tickerOf mapping (keyOf pid) = "Unknown(" ++ keyStr (keyOf pid) ++ ")"
    ∧ (⟨s.timestamp, rateOf rs⟩ : FundingEntry)
        ∈ fdGet (process_funding_rates mapping snapshots)
            ("Unknown(" ++ keyStr (keyOf pid) ++ ")")
    ∧ totalEntries (process_funding_rates mapping snapshots)
        = totalPairs snapshots := by
  have hlab : tickerOf mapping (keyOf pid) = "Unknown(" ++ keyStr (keyOf pid) ++ ")" := by
    cases hk : keyOf pid with
    | inl n =>
      have hnone := hmiss n hk
      simp [tickerOf, keyStr, hnone]
    | inr str => simp [tickerOf, keyStr]
  refine ⟨hlab, ?_, totalEntries_process mapping snapshots⟩
  rw [← hlab, fdGet_process_eq_tickerEntries]
  exact List.mem_flatten.mpr ⟨_, List.mem_map_of_mem _ hs,
    List.mem_filterMap.mpr ⟨(pid, rs), hpr, by rw [if_pos rfl]⟩⟩

/-- Witness for C6: product id 7 against an empty mapping; the label evaluates
to the literal `"Unknown(7)"`. -/
theorem rate_processor_unknown_label_witness :
    (tickerOf [] (keyOf "7") = "Unknown(" ++ keyStr (keyOf "7") ++ ")"
      ∧ (⟨5, rateOf "2400000000000000000"⟩ : FundingEntry)
          ∈ fdGet (process_funding_rates [] [⟨5, [("7", "2400000000000000000")]⟩])
              ("Unknown(" ++ keyStr (keyOf "7") ++ ")")
      ∧ totalEntries (process_funding_rates [] [⟨5, [("7", "2400000000000000000")]⟩])
          = totalPairs [⟨5, [("7", "2400000000000000000")]⟩])
    ∧ "Unknown(" ++ keyStr (keyOf "7") ++ ")" = "Unknown(7)" :=
  ⟨rate_processor_unknown_label [] [⟨5, [("7", "2400000000000000000")]⟩]
      ⟨5, [("7", "2400000000000000000")]⟩ "7" "2400000000000000000"
      (List.mem_singleton.mpr rfl) (List.mem_singleton.mpr rfl)
      (fun _ _ => rfl),
   by decide⟩

/-! ## Lemmas about the Aggregator sort -/

theorem insertDesc_perm (x : String × ℚ) (l : List (String × ℚ)) :
    List.Perm (insertDesc x l) (x :: l) := by
  induction l with
  | nil => exact List.Perm.refl _
  | cons y ys ih =>
    by_cases h : y.2 ≤ x.2
    · simp only [insertDesc, if_pos h]
      exact List.Perm.refl _
    · simp only [insertDesc, if_neg h]
      exact (ih.cons y).trans (List.Perm.swap x y ys)

theorem sortDesc_perm (l : List (String × ℚ)) : List.Perm (sortDesc l) l := by
  induction l with
  | nil => exact List.Perm.refl _
  | cons x xs ih =>
    exact (insertDesc_perm x (sortDesc xs)).trans (ih.cons x)

theorem insertDesc_sorted (x : String × ℚ) (l : List (String × ℚ))
    (hl : l.Pairwise (fun a b => b.2 ≤ a.2)) :
    (insertDesc x l).Pairwise (fun a b => b.2 ≤ a.2) := by
  induction l with
  | nil => simp [insertDesc]
  | cons y ys ih =>
    rcases List.pairwise_cons.mp hl with ⟨hy, hys⟩
    by_cases h : y.2 ≤ x.2
    · simp only [insertDesc, if_pos h]
      refine List.pairwise_cons.mpr ⟨?_, hl⟩
      intro b hb
      rcases List.mem_cons.mp hb with rfl | hb'
      · exact h
      · exact le_trans (hy b hb') h
    · simp only [insertDesc, if_neg h]
      refine List.pairwise_cons.mpr ⟨?_, ih hys⟩
      intro b hb
      rcases List.mem_cons.mp ((insertDesc_perm x ys).mem_iff.mp hb) with rfl | hb'
      · exact le_of_not_le h
      · exact hy b hb'

theorem sortDesc_sorted (l : List (String × ℚ)) :
    (sortDesc l).Pairwise (fun a b => b.2 ≤ a.2) := by
  induction l with
  | nil => simp [sortDesc]
  | cons x xs ih => exact insertDesc_sorted x (sortDesc xs) ih

theorem insertDesc_filter (x : String × ℚ) (l : List (String × ℚ)) (v : ℚ) :
    (insertDesc x l).filter (fun p => decide (p.2 = v))
      = if x.2 = v then x :: l.filter (fun p => decide (p.2 = v))
        else l.filter (fun p => decide (p.2 = v)) := by
  induction l with
  | nil =>
    by_cases h : x.2 = v <;> simp [insertDesc, h]
  | cons y ys ih =>
    by_cases hcmp : y.2 ≤ x.2
    · simp only [insertDesc, if_pos hcmp]
      by_cases h : x.2 = v <;> simp [List.filter_cons, h]
    · simp only [insertDesc, if_neg hcmp]
      by_cases h : x.2 = v
      · have hy : ¬ y.2 = v := fun hh => hcmp (le_of_eq (hh.trans h.symm))
        simp [List.filter_cons, hy, ih, h]
      · simp [List.filter_cons, ih, h]

theorem sortDesc_filter (l : List (String × ℚ)) (v : ℚ) :
    (sortDesc l).filter (fun p => decide (p.2 = v))
      = l.filter (fun p => decide (p.2 = v)) := by
  induction l with
  | nil => rfl
  | cons x xs ih =>
    simp only [sortDesc]
    rw [insertDesc_filter]
    by_cases h : x.2 = v
    · simp [List.filter_cons, h, ih]
    · simp [List.filter_cons, h, ih]

/-- C7: the ranked list is a permutation of the per-ticker averages, sorted
descending by average rate, and stable: for every rate value, the tickers
holding that value appear in the same order as in the aggregated input. -/
theorem aggregator_sort_descending_stable (fd : FundingData) :
    (sortDesc (average_rates fd)).Perm (average_rates fd)
    ∧ (sortDesc (average_rates fd)).Pairwise (fun a b => b.2 ≤ a.2)
    ∧ ∀ v : ℚ,
        (sortDesc (average_rates fd)).filter (fun p => decide (p.2 = v))
          = (average_rates fd).filter (fun p => decide (p.2 = v)) :=
  ⟨sortDesc_perm _, sortDesc_sorted _, fun v => sortDesc_filter _ v⟩

end Vertex
